import Mathlib

/-!
Shallow embedding of `src/main.py` (hackers_wrapped): a script that fetches a
GitHub user's 2024 events and push-derived commits through the paginated
events API and prints a summary.  The remote service is modelled by oracles
(`EventsOracle`, `DetailOracle`); Python exceptions are modelled by the
`PyError` type carried in `Except`.
-/

namespace HackersWrapped

set_option autoImplicit false
set_option maxRecDepth 8192

/-- A parsed timestamp, as produced by `datetime.strptime` with the format
`%Y-%m-%dT%H:%M:%SZ` in `main.py`. -/
structure Datetime where
  year : Nat
  month : Nat
  day : Nat
  hour : Nat
  minute : Nat
  second : Nat
deriving DecidableEq

/-- Numeric value of a decimal digit character, `none` on non-digits. -/
def digitVal (c : Char) : Option Nat :=
  if c.isDigit then some (c.toNat - 48) else none

/-- `%Y` in CPython's `_strptime`: exactly four decimal digits. -/
def parseYear : List Char → Option (Nat × List Char)
  | c1 :: c2 :: c3 :: c4 :: rest => do
    let d1 ← digitVal c1
    let d2 ← digitVal c2
    let d3 ← digitVal c3
    let d4 ← digitVal c4
    some (((d1 * 10 + d2) * 10 + d3) * 10 + d4, rest)
  | _ => none

/-- A one-or-two-digit numeric field of `strptime`.  The regex alternatives of
such a field (for example `1[0-2]|0[1-9]|[1-9]` for `%m`) amount to: if two
digits follow, their value must satisfy `two`; otherwise a single digit must
satisfy `one`.  (A two-digit read that fails the following literal cannot
backtrack into a one-digit read, because the second digit then blocks the
literal, which is never a digit in this format.) -/
def parseNum2 (two one : Nat → Bool) : List Char → Option (Nat × List Char)
  | c1 :: c2 :: rest =>
    match digitVal c1, digitVal c2 with
    | some d1, some d2 =>
      if two (d1 * 10 + d2) then some (d1 * 10 + d2, rest) else none
    | some d1, none => if one d1 then some (d1, c2 :: rest) else none
    | none, _ => none
  | [c1] => do
    let d1 ← digitVal c1
    if one d1 then some (d1, []) else none
  | [] => none

/-- `%m`: `1[0-2]|0[1-9]|[1-9]`. -/
def parseMonth : List Char → Option (Nat × List Char) :=
  parseNum2 (fun n => 1 ≤ n && n ≤ 12) (fun n => 1 ≤ n)

/-- `%d`: `3[01]|[1-2]\d|0[1-9]|[1-9]| [1-9]` (a space may replace a leading
zero). -/
def parseDay : List Char → Option (Nat × List Char)
  | ' ' :: c :: rest => do
    let d ← digitVal c
    if 1 ≤ d then some (d, rest) else none
  | cs => parseNum2 (fun n => 1 ≤ n && n ≤ 31) (fun n => 1 ≤ n) cs

/-- `%H`: `2[0-3]|[0-1]\d|\d`. -/
def parseHour : List Char → Option (Nat × List Char) :=
  parseNum2 (fun n => n ≤ 23) (fun _ => true)

/-- `%M`: `[0-5]\d|\d`. -/
def parseMinute : List Char → Option (Nat × List Char) :=
  parseNum2 (fun n => n ≤ 59) (fun _ => true)

/-- `%S`: `6[0-1]|[0-5]\d|\d` (60 and 61 pass the regex but are later rejected
by the `datetime` constructor). -/
def parseSecond : List Char → Option (Nat × List Char) :=
  parseNum2 (fun n => n ≤ 61) (fun _ => true)

/-- A literal character of the format string; `_strptime` compiles its regex
with `re.IGNORECASE`, so `T`/`Z` also match `t`/`z`. -/
def parseLit (a : Char) : List Char → Option (List Char)
  | c :: rest => if c.toLower = a.toLower then some rest else none
  | [] => none

def isLeapYear (y : Nat) : Bool :=
  y % 4 = 0 && (y % 100 ≠ 0 || y % 400 = 0)

def daysInMonth (y m : Nat) : Nat :=
  if m = 2 then (if isLeapYear y then 29 else 28)
  else if m = 4 ∨ m = 6 ∨ m = 9 ∨ m = 11 then 30
  else 31

/-- `datetime.strptime(s, "%Y-%m-%dT%H:%M:%SZ")` from `main.py` lines 86, 137
and 178: `some` on success, `none` where Python raises `ValueError` (either
because the regex does not consume the whole string or because the `datetime`
constructor rejects the field values). -/
def parseTimestamp (s : String) : Option Datetime := do
  let (y, r1) ← parseYear s.data
  let r2 ← parseLit '-' r1
  let (mo, r3) ← parseMonth r2
  let r4 ← parseLit '-' r3
  let (d, r5) ← parseDay r4
  let r6 ← parseLit 'T' r5
  let (h, r7) ← parseHour r6
  let r8 ← parseLit ':' r7
  let (mi, r9) ← parseMinute r8
  let r10 ← parseLit ':' r9
  let (sec, r11) ← parseSecond r10
  let r12 ← parseLit 'Z' r11
  if r12 = [] ∧ 1 ≤ y ∧ d ≤ daysInMonth y mo ∧ sec ≤ 59 then
    some { year := y, month := mo, day := d, hour := h, minute := mi, second := sec }
  else
    none

/-- The part of an event's `payload` dict that `main.py` reads: for a
`PushEvent`, `payload["commits"]` is a list of entries whose `"sha"` keys are
the strings collected here. -/
structure EventPayload where
  commits : List String
deriving DecidableEq

/-- One element of a page returned by `GET /users/{username}/events`, with the
fields `main.py` reads (`id`, `type`, `repo.name`, `created_at`, `payload`). -/
structure RawEvent where
  id : String
  type : String
  repo_name : String
  created_at : String
  payload : EventPayload
deriving DecidableEq

/-- The dataclass `GitHubEvent` of `main.py`. -/
structure GitHubEvent where
  id : String
  type : String
  repo_name : String
  created_at : Datetime
  payload : EventPayload
deriving DecidableEq

/-- The `stats` entry of a commit-detail response (`additions`/`deletions`). -/
structure CommitStats where
  additions : Nat
  deletions : Nat
deriving DecidableEq

/-- The dataclass `GitHubCommit` of `main.py`. -/
structure GitHubCommit where
  sha : String
  author_name : String
  author_email : String
  message : String
  date : Datetime
  repo_name : String
  url : String
  stats : Option CommitStats
deriving DecidableEq

/-- Python exceptions relevant to `main.py`: `requests.RequestException`
(transport/HTTP failure), `ValueError` (failed `strptime` or failed tuple
unpacking), `KeyError` (missing dict key). -/
inductive PyError where
  | requestException (msg : String)
  | valueError (msg : String)
  | keyError (key : String)
deriving DecidableEq

/-- Outcome of one HTTP GET: either `session.get`/`raise_for_status` raises
`requests.RequestException`, or a parsed JSON body is returned. -/
inductive FetchResult (α : Type) where
  | transportError (msg : String)
  | success (data : α)
deriving DecidableEq

/-- The remote's behaviour on `GET /users/{username}/events?page={n}`:
page number to fetch outcome (the username is fixed throughout one run). -/
def EventsOracle : Type := Nat → FetchResult (List RawEvent)

/-- The commit-detail response body, with the keys `main.py` reads.  A `none`
field models a missing key (a Python `KeyError` on access); `stats` is read
with `.get` and is therefore an `Option` without an error case. -/
structure CommitResponse where
  sha : Option String
  author_name : Option String
  author_email : Option String
  author_date : Option String
  message : Option String
  html_url : Option String
  stats : Option CommitStats
deriving DecidableEq

/-- The remote's behaviour on `GET /repos/{owner}/{repo}/commits/{sha}`. -/
def DetailOracle : Type := String → String → String → FetchResult CommitResponse

/-- `data[key]` on a Python dict: the value, or `KeyError`. -/
def getKey {α : Type} (o : Option α) (key : String) : Except PyError α :=
  match o with
  | some v => .ok v
  | none => .error (.keyError key)

/-- Construction of the `GitHubCommit` dataclass from a detail response,
`main.py` lines 132-141, with field accesses in source order.  Any missing
key raises `KeyError`; a malformed `commit.author.date` raises `ValueError`
from `strptime`.  Neither is caught by `get_commit_details`. -/
def decodeCommitResponse (owner repo : String) (data : CommitResponse) :
    Except PyError GitHubCommit := do
  let sha ← getKey data.sha "sha"
  let name ← getKey data.author_name "commit.author.name"
  let email ← getKey data.author_email "commit.author.email"
  let msg ← getKey data.message "commit.message"
  let dateStr ← getKey data.author_date "commit.author.date"
  let date ← match parseTimestamp dateStr with
    | some d => Except.ok d
    | none => Except.error (PyError.valueError dateStr)
  let url ← getKey data.html_url "html_url"
  Except.ok { sha := sha, author_name := name, author_email := email,
              message := msg, date := date, repo_name := owner ++ "/" ++ repo,
              url := url, stats := data.stats }

/-- `GitHubAPI.get_commit_details` (lines 114-144): a transport/HTTP failure
is caught, a line naming the faulting SHA is printed to stderr, and `None` is
returned; decoding failures propagate.  The second component collects the
stderr output. -/
def get_commit_details (detail : DetailOracle) (owner repo sha : String) :
    Except PyError (Option GitHubCommit) × List String :=
  match detail owner repo sha with
  | .transportError e =>
    (.ok none, [s!"Error fetching commit details for {sha}: {e}"])
  | .success data =>
    match decodeCommitResponse owner repo data with
    | .ok c => (.ok (some c), [])
    | .error err => (.error err, [])

/-- The per-page event loop of `get_user_events_2024` (lines 85-99): parse
each element's `created_at`, drop elements whose year is not 2024, convert
the rest to `GitHubEvent` records. -/
def processEventsPage : List RawEvent → Except PyError (List GitHubEvent)
  | [] => .ok []
  | e :: rest =>
    match parseTimestamp e.created_at with
    | none => .error (.valueError e.created_at)
    | some dt =>
      if dt.year ≠ 2024 then processEventsPage rest
      else (processEventsPage rest).map (fun tail =>
        { id := e.id, type := e.type, repo_name := e.repo_name,
          created_at := dt, payload := e.payload } :: tail)

/-- `owner, repo = event["repo"]["name"].split("/")` (line 185): Python's
`split` cuts at every separator and the tuple unpacking demands exactly two
parts, raising `ValueError` otherwise.  `splitAll` mirrors `str.split` with a
one-character separator. -/
def splitAll (sep : Char) : List Char → List (List Char)
  | [] => [[]]
  | c :: rest =>
    let r := splitAll sep rest
    if c = sep then [] :: r
    else
      match r with
      | [] => [[c]]
      | g :: gs => (c :: g) :: gs

/-- `s.split(sep)` for a one-character separator. -/
def pySplit (s : String) (sep : Char) : List String :=
  (splitAll sep s.data).map (fun cs => String.mk cs)

/-- Line 185 of `main.py`, including the unpacking failure. -/
def splitRepoName (name : String) : Except PyError (String × String) :=
  match pySplit name '/' with
  | [owner, repo] => .ok (owner, repo)
  | _ => .error (.valueError name)

/-- The inner loop over `event["payload"]["commits"]` (lines 188-191): fetch
detail for each SHA, append the record when one is returned, skip `None`. -/
def processPushCommits (detail : DetailOracle) (owner repo : String) :
    List String → Except PyError (List GitHubCommit) × List String
  | [] => (.ok [], [])
  | sha :: rest =>
    match get_commit_details detail owner repo sha with
    | (.error err, lg) => (.error err, lg)
    | (.ok c, lg) =>
      let r := processPushCommits detail owner repo rest
      (r.1.map (fun cs =>
        match c with
        | some commit => commit :: cs
        | none => cs), lg ++ r.2)

/-- The per-page loop of `get_user_commits_2024` (lines 177-191): parse each
element's `created_at`, skip elements that are not 2024 `PushEvent`s, split
the repo name, and fetch every referenced commit. -/
def processCommitsPage (detail : DetailOracle) :
    List RawEvent → Except PyError (List GitHubCommit) × List String
  | [] => (.ok [], [])
  | e :: rest =>
    match parseTimestamp e.created_at with
    | none => (.error (.valueError e.created_at), [])
    | some dt =>
      if dt.year ≠ 2024 ∨ e.type ≠ "PushEvent" then processCommitsPage detail rest
      else
        match splitRepoName e.repo_name with
        | .error err => (.error err, [])
        | .ok (owner, repo) =>
          match processPushCommits detail owner repo e.payload.commits with
          | (.error err, lg) => (.error err, lg)
          | (.ok cs, lg) =>
            let r := processCommitsPage detail rest
            (r.1.map (fun tail => cs ++ tail), lg ++ r.2)

deriving instance DecidableEq for Except

/-- Result of one paginated fetch: the pages requested (in request order),
the stderr lines printed, and the returned list or the exception raised. -/
structure PageFetch (α : Type) where
  pages : List Nat
  log : List String
  result : Except PyError (List α)
deriving DecidableEq

/-- The `while True` pagination loop shared verbatim by
`get_user_events_2024` (lines 70-111) and `get_user_commits_2024`
(lines 162-202), starting at `page`: request the page; on transport failure
print and re-raise; on an empty body stop; otherwise run the per-page body
`process` (whose exceptions propagate) and stop when the page held fewer than
100 elements or `page * 100 >= 300`. -/
def paginate {α : Type} (remote : EventsOracle)
    (process : List RawEvent → Except PyError (List α) × List String)
    (page : Nat) : PageFetch α :=
  match remote page with
  | .transportError e =>
    { pages := [page], log := [s!"Error fetching events: {e}"],
      result := .error (.requestException e) }
  | .success data =>
    if data = [] then { pages := [page], log := [], result := .ok [] }
    else
      match process data with
      | (.error err, lg) => { pages := [page], log := lg, result := .error err }
      | (.ok xs, lg) =>
        if h : data.length < 100 ∨ page * 100 ≥ 300 then
          { pages := [page], log := lg, result := .ok xs }
        else
          let rest := paginate remote process (page + 1)
          { pages := page :: rest.pages, log := lg ++ rest.log,
            result := rest.result.map (fun tail => xs ++ tail) }
termination_by 3 - page
decreasing_by
  simp only [not_or, not_lt] at h
  omega

/-- `GitHubAPI.get_user_events_2024` (lines 54-112). -/
def get_user_events_2024 (remote : EventsOracle) : PageFetch GitHubEvent :=
  paginate remote (fun data => (processEventsPage data, [])) 1

/-- `GitHubAPI.get_user_commits_2024` (lines 146-204). -/
def get_user_commits_2024 (remote : EventsOracle) (detail : DetailOracle) :
    PageFetch GitHubCommit :=
  paginate remote (processCommitsPage detail) 1

/-! Specification-side description of the commit list, written from the
spec's words (§4.3 / §8), to be compared with the loop implementation. -/

/-- The commit record a detail fetch for `sha` yields when it succeeds,
`none` when that fetch is skipped or fails. -/
def fetchedCommit (detail : DetailOracle) (owner repo sha : String) :
    Option GitHubCommit :=
  match get_commit_details detail owner repo sha with
  | (.ok (some c), _) => some c
  | _ => none

/-- From the spec: "Commit records are produced only from events of type
PushEvent" whose creation year is 2024, "one per successfully-fetched SHA, in
event-then-commit-array order". -/
def specCommitsOfEvents (detail : DetailOracle) (data : List RawEvent) :
    List GitHubCommit :=
  (data.filter (fun e =>
      e.type == "PushEvent" &&
      (parseTimestamp e.created_at).map Datetime.year == some 2024)).flatMap
    (fun e =>
      match splitRepoName e.repo_name with
      | .ok (owner, repo) => e.payload.commits.filterMap (fetchedCommit detail owner repo)
      | .error _ => [])

/-! The reporter (`main`, lines 228-235): grouping events by type with
`event_types[t] = event_types.get(t, 0) + 1` over an insertion-ordered
dict, modelled as an association list. -/

/-- One `event_types[t] = event_types.get(t, 0) + 1` step: increment in
place when the key exists (a Python dict keeps its position), else append. -/
def bumpType (acc : List (String × Nat)) (t : String) : List (String × Nat) :=
  match acc with
  | [] => [(t, 1)]
  | (k, n) :: rest => if k = t then (k, n + 1) :: rest else (k, n) :: bumpType rest t

/-- The `for event in events` grouping loop of `main`. -/
def groupEventTypes (events : List GitHubEvent) : List (String × Nat) :=
  events.foldl (fun acc e => bumpType acc e.type) []

/-- `event_types.get(t)`: the count recorded for type `t`, if any. -/
def typeCount (counts : List (String × Nat)) (t : String) : Option Nat :=
  match counts with
  | [] => none
  | (k, n) :: rest => if k = t then some n else typeCount rest t

/-! The overall run (`main`, lines 221-282): both fetches inside one
`try` whose `except requests.RequestException` prints to stderr and exits
with code 1; any other exception propagates uncaught. -/

inductive MainOutcome where
  | success (events : List GitHubEvent) (commits : List GitHubCommit)
  | exitOne
  | uncaught (e : PyError)
deriving DecidableEq

structure MainRun where
  outcome : MainOutcome
  errLog : List String
deriving DecidableEq

/-- `main`'s fetch-and-report block: run the events fetch, then the commits
fetch; `requests.RequestException` is caught (stderr line, exit 1), anything
else escapes. -/
def runMain (remote : EventsOracle) (detail : DetailOracle) : MainRun :=
  let ef := get_user_events_2024 remote
  match ef.result with
  | .error (.requestException m) =>
    { outcome := .exitOne, errLog := ef.log ++ [s!"Failed to fetch events: {m}"] }
  | .error e => { outcome := .uncaught e, errLog := ef.log }
  | .ok events =>
    let cf := get_user_commits_2024 remote detail
    match cf.result with
    | .error (.requestException m) =>
      { outcome := .exitOne, errLog := ef.log ++ cf.log ++ [s!"Failed to fetch events: {m}"] }
    | .error e => { outcome := .uncaught e, errLog := ef.log ++ cf.log }
    | .ok commits => { outcome := .success events commits, errLog := ef.log ++ cf.log }

/-! Concrete fixtures used to exercise the theorems below on closed inputs. -/

def sRemote : EventsOracle := fun p => if p = 1 then .success [] else .success []

def sPush : RawEvent :=
  { id := "1", type := "PushEvent", repo_name := "o/r",
    created_at := "2024-01-02T03:04:05Z", payload := { commits := ["s1"] } }

def sRemote2 : EventsOracle := fun p => if p = 1 then .success [sPush] else .success []

def sResponse : CommitResponse :=
  { sha := some "abc", author_name := some "A", author_email := some "a@x",
    author_date := some "2024-01-02T03:04:05Z", message := some "msg",
    html_url := some "u", stats := none }

def sDetail : DetailOracle := fun _ _ _ => .success sResponse

def sCommit : GitHubCommit :=
  { sha := "abc", author_name := "A", author_email := "a@x", message := "msg",
    date := { year := 2024, month := 1, day := 2, hour := 3, minute := 4, second := 5 },
    repo_name := "o/r", url := "u", stats := none }

def sDecodedEvent : GitHubEvent :=
  { id := "1", type := "PushEvent", repo_name := "o/r",
    created_at := { year := 2024, month := 1, day := 2, hour := 3, minute := 4, second := 5 },
    payload := { commits := ["s1"] } }

def sDt : Datetime :=
  { year := 2024, month := 1, day := 2, hour := 3, minute := 4, second := 5 }

def s5Detail : DetailOracle := fun _ _ sha =>
  if sha = "s2" then .transportError "404" else .success sResponse

def s5Push : RawEvent :=
  { id := "1", type := "PushEvent", repo_name := "o/r",
    created_at := "2024-01-02T03:04:05Z", payload := { commits := ["s1", "s2", "s3"] } }

def sEventA : GitHubEvent :=
  { id := "a", type := "A", repo_name := "o/r",
    created_at := { year := 2024, month := 1, day := 1, hour := 0, minute := 0, second := 0 },
    payload := { commits := [] } }

def sEventB : GitHubEvent :=
  { id := "b", type := "B", repo_name := "o/r",
    created_at := { year := 2024, month := 1, day := 1, hour := 0, minute := 0, second := 0 },
    payload := { commits := [] } }

def s7Remote : EventsOracle := fun _ => .transportError "boom"

def s7Detail : DetailOracle := fun _ _ _ => .transportError "404"

def s9Resp : CommitResponse :=
  { sha := none, author_name := some "A", author_email := some "a@x",
    author_date := some "2024-01-02T03:04:05Z", message := some "msg",
    html_url := some "u", stats := none }

def s9Detail : DetailOracle := fun _ _ _ => .success s9Resp

def s9Remote : EventsOracle := fun p => if p = 1 then .success [sPush] else .success []

def sBadEvent : RawEvent :=
  { id := "9", type := "PushEvent", repo_name := "o/r",
    created_at := "not-a-date", payload := { commits := [] } }

def s10Remote : EventsOracle := fun p => if p = 1 then .success [sBadEvent] else .success []

/-! Generic facts about the shared pagination loop. -/

theorem paginate_pages_ge {α : Type} (remote : EventsOracle)
    (process : List RawEvent → Except PyError (List α) × List String)
    (page : Nat) :
    ∀ q ∈ (paginate remote process page).pages, page ≤ q := by
  induction page using paginate.induct remote process with
  | case1 x e hr => rw [paginate]; simp [hr]
  | case2 x hr => rw [paginate]; simp [hr]
  | case3 x data hr hne err lg hp => rw [paginate]; simp [hr, hne, hp]
  | case4 x data hr hne xs lg hp hcond =>
    rw [paginate]; simp only [hr, if_neg hne, hp]
    rw [dif_pos hcond]
    simp
  | case5 x data hr hne xs lg hp hcond ih =>
    rw [paginate]; simp only [hr, if_neg hne, hp]
    rw [dif_neg hcond]
    intro q hq
    rcases List.mem_cons.mp hq with h | h
    · omega
    · have := ih q h; omega

theorem paginate_pages_le {α : Type} (remote : EventsOracle)
    (process : List RawEvent → Except PyError (List α) × List String)
    (page : Nat) :
    ∀ q ∈ (paginate remote process page).pages, q = page ∨ q ≤ 3 := by
  induction page using paginate.induct remote process with
  | case1 x e hr => rw [paginate]; simp [hr]
  | case2 x hr => rw [paginate]; simp [hr]
  | case3 x data hr hne err lg hp => rw [paginate]; simp [hr, hne, hp]
  | case4 x data hr hne xs lg hp hcond =>
    rw [paginate]; simp only [hr, if_neg hne, hp]
    rw [dif_pos hcond]
    simp
  | case5 x data hr hne xs lg hp hcond ih =>
    rw [paginate]; simp only [hr, if_neg hne, hp]
    rw [dif_neg hcond]
    intro q hq
    rcases List.mem_cons.mp hq with h | h
    · exact Or.inl h
    · rcases ih q h with h' | h'
      · right; omega
      · exact Or.inr h'

theorem paginate_stop_short {α : Type} (remote : EventsOracle)
    (process : List RawEvent → Except PyError (List α) × List String)
    (page : Nat) :
    ∀ (p : Nat) (data : List RawEvent),
      p ∈ (paginate remote process page).pages →
      remote p = .success data → data.length < 100 →
      ∀ q ∈ (paginate remote process page).pages, q ≤ p := by
  induction page using paginate.induct remote process with
  | case1 x e hr =>
    intro p data hp hrp hshort q hq
    rw [paginate] at hp hq; simp [hr] at hp hq; omega
  | case2 x hr =>
    intro p data hp hrp hshort q hq
    rw [paginate] at hp hq; simp [hr] at hp hq; omega
  | case3 x data hr hne err lg hp =>
    intro p data' hp' hrp hshort q hq
    rw [paginate] at hp' hq; simp [hr, hne, hp] at hp' hq; omega
  | case4 x data hr hne xs lg hp hcond =>
    intro p data' hp' hrp hshort q hq
    rw [paginate] at hp' hq
    simp only [hr, if_neg hne, hp] at hp' hq
    rw [dif_pos hcond] at hp' hq
    simp at hp' hq; omega
  | case5 x data hr hne xs lg hp hcond ih =>
    intro p data' hp' hrp hshort q hq
    rw [paginate] at hp' hq
    simp only [hr, if_neg hne, hp] at hp' hq
    rw [dif_neg hcond] at hp' hq
    rcases List.mem_cons.mp hp' with h | h
    · subst h
      rw [hr] at hrp
      cases hrp
      exact absurd (Or.inl hshort) hcond
    · have hpge := paginate_pages_ge remote process (x + 1) p h
      rcases List.mem_cons.mp hq with h' | h'
      · omega
      · exact ih p data' h hrp hshort q h'

theorem paginate_transport_at {α : Type} (remote : EventsOracle)
    (process : List RawEvent → Except PyError (List α) × List String)
    (page : Nat) :
    ∀ (p : Nat) (m : String),
      p ∈ (paginate remote process page).pages →
      remote p = .transportError m →
      (paginate remote process page).result = .error (.requestException m) := by
  induction page using paginate.induct remote process with
  | case1 x e hr =>
    intro p m hp hrp
    rw [paginate] at hp ⊢; simp [hr] at hp ⊢
    subst hp; rw [hr] at hrp; cases hrp; rfl
  | case2 x hr =>
    intro p m hp hrp
    rw [paginate] at hp; simp [hr] at hp
    subst hp; rw [hr] at hrp; cases hrp
  | case3 x data hr hne err lg hp =>
    intro p m hp' hrp
    rw [paginate] at hp'; simp [hr, hne, hp] at hp'
    subst hp'; rw [hr] at hrp; cases hrp
  | case4 x data hr hne xs lg hp hcond =>
    intro p m hp' hrp
    rw [paginate] at hp'
    simp only [hr, if_neg hne, hp] at hp'
    rw [dif_pos hcond] at hp'
    simp at hp'
    subst hp'; rw [hr] at hrp; cases hrp
  | case5 x data hr hne xs lg hp hcond ih =>
    intro p m hp' hrp
    rw [paginate] at hp' ⊢
    simp only [hr, if_neg hne, hp] at hp' ⊢
    rw [dif_neg hcond] at hp' ⊢
    rcases List.mem_cons.mp hp' with h | h
    · subst h; rw [hr] at hrp; cases hrp
    · rw [ih p m h hrp]; rfl

theorem paginate_error_at {α : Type} (remote : EventsOracle)
    (process : List RawEvent → Except PyError (List α) × List String)
    (page : Nat) :
    ∀ (p : Nat) (data : List RawEvent) (err : PyError),
      p ∈ (paginate remote process page).pages →
      remote p = .success data → data ≠ [] →
      (process data).1 = .error err →
      (paginate remote process page).result = .error err := by
  induction page using paginate.induct remote process with
  | case1 x e hr =>
    intro p data err hp hrp hne' hperr
    rw [paginate] at hp; simp [hr] at hp
    subst hp; rw [hr] at hrp; cases hrp
  | case2 x hr =>
    intro p data err hp hrp hne' hperr
    rw [paginate] at hp; simp [hr] at hp
    subst hp; rw [hr] at hrp; cases hrp
    exact absurd rfl hne'
  | case3 x data hr hne err lg hp =>
    intro p data' err' hp' hrp hne' hperr
    rw [paginate] at hp' ⊢; simp [hr, hne, hp] at hp' ⊢
    subst hp'; rw [hr] at hrp; cases hrp
    rw [hp] at hperr
    cases hperr; rfl
  | case4 x data hr hne xs lg hp hcond =>
    intro p data' err' hp' hrp hne' hperr
    rw [paginate] at hp'
    simp only [hr, if_neg hne, hp] at hp'
    rw [dif_pos hcond] at hp'
    simp at hp'
    subst hp'; rw [hr] at hrp; cases hrp
    rw [hp] at hperr
    cases hperr
  | case5 x data hr hne xs lg hp hcond ih =>
    intro p data' err' hp' hrp hne' hperr
    rw [paginate] at hp' ⊢
    simp only [hr, if_neg hne, hp] at hp' ⊢
    rw [dif_neg hcond] at hp' ⊢
    rcases List.mem_cons.mp hp' with h | h
    · subst h; rw [hr] at hrp; cases hrp
      rw [hp] at hperr
      cases hperr
    · rw [ih p data' err' h hrp hne' hperr]; rfl

theorem paginate_ok_all {α : Type} (remote : EventsOracle)
    (process : List RawEvent → Except PyError (List α) × List String)
    (page : Nat) (P : α → Prop)
    (hproc : ∀ data cs lg, process data = (.ok cs, lg) → ∀ x ∈ cs, P x) :
    ∀ (xs : List α), (paginate remote process page).result = .ok xs →
      ∀ x ∈ xs, P x := by
  induction page using paginate.induct remote process with
  | case1 x e hr =>
    intro xs hres
    rw [paginate] at hres; simp [hr] at hres
  | case2 x hr =>
    intro xs hres
    rw [paginate] at hres; simp [hr] at hres
    subst hres; simp
  | case3 x data hr hne err lg hp =>
    intro xs hres
    rw [paginate] at hres; simp [hr, hne, hp] at hres
  | case4 x data hr hne xs lg hp hcond =>
    intro xs' hres
    rw [paginate] at hres
    simp only [hr, if_neg hne, hp] at hres
    rw [dif_pos hcond] at hres
    simp at hres
    subst hres
    exact hproc data xs lg hp
  | case5 x data hr hne xs lg hp hcond ih =>
    intro xs' hres
    rw [paginate] at hres
    simp only [hr, if_neg hne, hp] at hres
    rw [dif_neg hcond] at hres
    simp only at hres
    cases htail : (paginate remote process (x + 1)).result with
    | error e => rw [htail] at hres; cases hres
    | ok tail =>
      rw [htail] at hres
      cases hres
      intro y hy
      rcases List.mem_append.mp hy with h | h
      · exact hproc data xs lg hp y h
      · exact ih tail htail y h

theorem paginate_ok_spec {α : Type} (remote : EventsOracle)
    (process : List RawEvent → Except PyError (List α) × List String)
    (page : Nat) (specOf : List RawEvent → List α)
    (hnil : specOf [] = [])
    (hproc : ∀ data cs lg, process data = (.ok cs, lg) → cs = specOf data) :
    ∀ (xs : List α), (paginate remote process page).result = .ok xs →
      xs = (paginate remote process page).pages.flatMap (fun p =>
        match remote p with
        | .success data => specOf data
        | .transportError _ => []) := by
  induction page using paginate.induct remote process with
  | case1 x e hr =>
    intro xs hres
    rw [paginate] at hres; simp [hr] at hres
  | case2 x hr =>
    intro xs hres
    rw [paginate] at hres ⊢; simp [hr] at hres ⊢
    subst hres; simp [hnil]
  | case3 x data hr hne err lg hp =>
    intro xs hres
    rw [paginate] at hres; simp [hr, hne, hp] at hres
  | case4 x data hr hne xs lg hp hcond =>
    intro xs' hres
    rw [paginate] at hres ⊢
    simp only [hr, if_neg hne, hp] at hres ⊢
    rw [dif_pos hcond] at hres ⊢
    simp at hres
    subst hres
    simp only [List.flatMap_cons, List.flatMap_nil, List.append_nil, hr]
    exact hproc data xs lg hp
  | case5 x data hr hne xs lg hp hcond ih =>
    intro xs' hres
    rw [paginate] at hres ⊢
    simp only [hr, if_neg hne, hp] at hres ⊢
    rw [dif_neg hcond] at hres ⊢
    simp only at hres
    cases htail : (paginate remote process (x + 1)).result with
    | error e => rw [htail] at hres; cases hres
    | ok tail =>
      rw [htail] at hres
      cases hres
      simp only [List.flatMap_cons, hr]
      rw [← ih tail htail, hproc data xs lg hp]

/-! Facts about the per-page bodies. -/

theorem processEventsPage_ok_year :
    ∀ (data : List RawEvent) (es : List GitHubEvent),
      processEventsPage data = .ok es → ∀ ev ∈ es, ev.created_at.year = 2024 := by
  intro data
  induction data with
  | nil =>
    intro es h
    simp only [processEventsPage] at h
    cases h
    simp
  | cons e rest ih =>
    intro es h
    simp only [processEventsPage] at h
    cases hpt : parseTimestamp e.created_at with
    | none => simp only [hpt] at h; cases h
    | some dt =>
      simp only [hpt] at h
      split at h
      · exact ih es h
      · rename_i hy
        cases hr : processEventsPage rest with
        | error err => simp only [hr, Except.map] at h; cases h
        | ok tail =>
          simp only [hr, Except.map] at h
          cases h
          intro ev hev
          rcases List.mem_cons.mp hev with h' | h'
          · subst h'; simpa using hy
          · exact ih tail hr ev h'

theorem processEventsPage_skip (e : RawEvent) (data : List RawEvent) (dt : Datetime)
    (hpt : parseTimestamp e.created_at = some dt) (hy : dt.year ≠ 2024) :
    processEventsPage (e :: data) = processEventsPage data := by
  simp only [processEventsPage, hpt, if_pos hy]

theorem processEventsPage_error_val :
    ∀ (data : List RawEvent) (err : PyError),
      processEventsPage data = .error err → ∃ m, err = .valueError m := by
  intro data
  induction data with
  | nil => intro err h; simp only [processEventsPage] at h; cases h
  | cons e rest ih =>
    intro err h
    simp only [processEventsPage] at h
    cases hpt : parseTimestamp e.created_at with
    | none =>
      simp only [hpt] at h
      cases h
      exact ⟨e.created_at, rfl⟩
    | some dt =>
      simp only [hpt] at h
      split at h
      · exact ih err h
      · cases hr : processEventsPage rest with
        | error err' =>
          simp only [hr, Except.map] at h
          cases h
          exact ih _ hr
        | ok tail => simp only [hr, Except.map] at h; cases h

theorem processEventsPage_mal :
    ∀ (data : List RawEvent) (e : RawEvent), e ∈ data →
      parseTimestamp e.created_at = none →
      ∃ err, processEventsPage data = .error err := by
  intro data
  induction data with
  | nil => intro e he; cases he
  | cons a rest ih =>
    intro e he hpt
    rcases List.mem_cons.mp he with h | h
    · subst h
      exact ⟨.valueError e.created_at, by simp only [processEventsPage, hpt]⟩
    · cases hpa : parseTimestamp a.created_at with
      | none => exact ⟨.valueError a.created_at, by simp only [processEventsPage, hpa]⟩
      | some dt =>
        rcases ih e h hpt with ⟨err, herr⟩
        by_cases hy : dt.year ≠ 2024
        · exact ⟨err, by rw [processEventsPage_skip a rest dt hpa hy]; exact herr⟩
        · refine ⟨err, ?_⟩
          simp only [processEventsPage, hpa, if_neg hy, herr]
          rfl

theorem processPushCommits_ok (detail : DetailOracle) (owner repo : String) :
    ∀ (shas : List String) (cs : List GitHubCommit) (lg : List String),
      processPushCommits detail owner repo shas = (.ok cs, lg) →
      cs = shas.filterMap (fetchedCommit detail owner repo) := by
  intro shas
  induction shas with
  | nil =>
    intro cs lg h
    simp only [processPushCommits] at h
    cases h
    rfl
  | cons sha rest ih =>
    intro cs lg h
    simp only [processPushCommits] at h
    split at h
    · simp at h
    · rename_i c lg0 hg
      have h1 := congrArg Prod.fst h
      simp only at h1
      cases hr : (processPushCommits detail owner repo rest).1 with
      | error err => simp only [hr, Except.map] at h1; cases h1
      | ok tail =>
        simp only [hr, Except.map] at h1
        have htail : processPushCommits detail owner repo rest =
            (.ok tail, (processPushCommits detail owner repo rest).2) := by
          rw [← hr]
        cases c with
        | none =>
          simp only at h1
          cases h1
          rw [List.filterMap_cons]
          have hfc : fetchedCommit detail owner repo sha = none := by
            simp only [fetchedCommit, hg]
          rw [hfc]
          exact ih _ _ htail
        | some commit =>
          simp only at h1
          cases h1
          rw [List.filterMap_cons]
          have hfc : fetchedCommit detail owner repo sha = some commit := by
            simp only [fetchedCommit, hg]
          rw [hfc, ih _ _ htail]

theorem exbind_error {ε α β : Type} (e : ε) (f : α → Except ε β) :
    (Except.error e >>= f) = .error e := rfl

theorem exbind_ok {ε α β : Type} (a : α) (f : α → Except ε β) :
    (Except.ok a >>= f) = f a := rfl

theorem specCommitsOfEvents_cons_neg (detail : DetailOracle) (e : RawEvent)
    (rest : List RawEvent)
    (hpred : (e.type == "PushEvent" &&
      ((parseTimestamp e.created_at).map Datetime.year == some 2024)) = false) :
    specCommitsOfEvents detail (e :: rest) = specCommitsOfEvents detail rest := by
  simp only [specCommitsOfEvents, List.filter_cons, hpred]
  simp

theorem specCommitsOfEvents_cons_pos (detail : DetailOracle) (e : RawEvent)
    (rest : List RawEvent) (owner repo : String)
    (hpred : (e.type == "PushEvent" &&
      ((parseTimestamp e.created_at).map Datetime.year == some 2024)) = true)
    (hsplit : splitRepoName e.repo_name = .ok (owner, repo)) :
    specCommitsOfEvents detail (e :: rest) =
      e.payload.commits.filterMap (fetchedCommit detail owner repo) ++
        specCommitsOfEvents detail rest := by
  simp only [specCommitsOfEvents, List.filter_cons, hpred, if_true, List.flatMap_cons, hsplit]

theorem processCommitsPage_ok_spec (detail : DetailOracle) :
    ∀ (data : List RawEvent) (cs : List GitHubCommit) (lg : List String),
      processCommitsPage detail data = (.ok cs, lg) →
      cs = specCommitsOfEvents detail data := by
  intro data
  induction data with
  | nil =>
    intro cs lg h
    simp only [processCommitsPage, Prod.mk.injEq, Except.ok.injEq] at h
    rw [← h.1]
    rfl
  | cons e rest ih =>
    intro cs lg h
    simp only [processCommitsPage] at h
    cases hpt : parseTimestamp e.created_at with
    | none => simp only [hpt] at h; simp at h
    | some dt =>
      simp only [hpt] at h
      split at h
      · rename_i hskip
        rw [ih cs lg h]
        have hpred : (e.type == "PushEvent" &&
            ((parseTimestamp e.created_at).map Datetime.year == some 2024)) = false := by
          rcases hskip with hy | ht
          · have hb : ((parseTimestamp e.created_at).map Datetime.year == some 2024) = false := by
              rw [hpt]
              exact beq_eq_false_iff_ne.mpr (by simp [hy])
            simp [hb]
          · have hb : (e.type == "PushEvent") = false := beq_eq_false_iff_ne.mpr ht
            simp [hb]
        rw [specCommitsOfEvents_cons_neg detail e rest hpred]
      · rename_i hskip
        push_neg at hskip
        have hpred : (e.type == "PushEvent" &&
            ((parseTimestamp e.created_at).map Datetime.year == some 2024)) = true := by
          simp [hpt, hskip.1, hskip.2]
        split at h
        · simp at h
        · rename_i owner repo hsplit
          split at h
          · simp at h
          · rename_i cs0 lg0 hpush
            have h1 := congrArg Prod.fst h
            simp only at h1
            cases hr : (processCommitsPage detail rest).1 with
            | error err => simp only [hr, Except.map] at h1; cases h1
            | ok tail =>
              simp only [hr, Except.map] at h1
              cases h1
              have htail : processCommitsPage detail rest =
                  (.ok tail, (processCommitsPage detail rest).2) := by
                rw [← hr]
              rw [specCommitsOfEvents_cons_pos detail e rest owner repo hpred hsplit,
                ← processPushCommits_ok detail owner repo e.payload.commits cs0 lg0 hpush,
                ← ih _ _ htail]

theorem processCommitsPage_mal (detail : DetailOracle) :
    ∀ (data : List RawEvent) (e : RawEvent), e ∈ data →
      parseTimestamp e.created_at = none →
      ∃ err, (processCommitsPage detail data).1 = .error err := by
  intro data
  induction data with
  | nil => intro e he; cases he
  | cons a rest ih =>
    intro e he hpt
    rcases List.mem_cons.mp he with h | h
    · subst h
      exact ⟨.valueError e.created_at, by simp only [processCommitsPage, hpt]⟩
    · cases hpa : parseTimestamp a.created_at with
      | none =>
        exact ⟨.valueError a.created_at, by simp only [processCommitsPage, hpa]⟩
      | some dt =>
        rcases ih e h hpt with ⟨err, herr⟩
        by_cases hskip : dt.year ≠ 2024 ∨ a.type ≠ "PushEvent"
        · exact ⟨err, by simp only [processCommitsPage, hpa, if_pos hskip]; exact herr⟩
        · cases hs : splitRepoName a.repo_name with
          | error err2 =>
            exact ⟨err2, by simp only [processCommitsPage, hpa, if_neg hskip, hs]⟩
          | ok pr =>
            obtain ⟨owner, repo⟩ := pr
            cases hp : processPushCommits detail owner repo a.payload.commits with
            | mk r lg0 =>
              cases r with
              | error err3 =>
                exact ⟨err3, by simp only [processCommitsPage, hpa, if_neg hskip, hs, hp]⟩
              | ok cs0 =>
                refine ⟨err, ?_⟩
                simp only [processCommitsPage, hpa, if_neg hskip, hs, hp, herr, Except.map]

theorem splitAll_no_sep (sep : Char) :
    ∀ (cs : List Char), sep ∉ cs → splitAll sep cs = [cs] := by
  intro cs
  induction cs with
  | nil => intro h; rfl
  | cons c rest ih =>
    intro h
    have hc : c ≠ sep := by
      intro heq
      exact h (heq ▸ List.mem_cons_self c rest)
    have hrest : sep ∉ rest := fun hm => h (List.mem_cons_of_mem c hm)
    simp only [splitAll, ih hrest, if_neg hc]

theorem decodeCommitResponse_error_shape (owner repo : String)
    (data : CommitResponse) (e : PyError)
    (h : decodeCommitResponse owner repo data = .error e) :
    (∃ k, e = .keyError k) ∨ (∃ m, e = .valueError m) := by
  simp only [decodeCommitResponse] at h
  cases hsha : data.sha with
  | none => rw [hsha] at h; simp only [getKey, exbind_error] at h; cases h; exact Or.inl ⟨_, rfl⟩
  | some sha =>
    rw [hsha] at h; simp only [getKey, exbind_ok] at h
    cases hnm : data.author_name with
    | none => rw [hnm] at h; simp only [getKey, exbind_error] at h; cases h; exact Or.inl ⟨_, rfl⟩
    | some nm =>
      rw [hnm] at h; simp only [getKey, exbind_ok] at h
      cases hem : data.author_email with
      | none => rw [hem] at h; simp only [getKey, exbind_error] at h; cases h; exact Or.inl ⟨_, rfl⟩
      | some em =>
        rw [hem] at h; simp only [getKey, exbind_ok] at h
        cases hmsg : data.message with
        | none => rw [hmsg] at h; simp only [getKey, exbind_error] at h; cases h; exact Or.inl ⟨_, rfl⟩
        | some msg =>
          rw [hmsg] at h; simp only [getKey, exbind_ok] at h
          cases hdate : data.author_date with
          | none => rw [hdate] at h; simp only [getKey, exbind_error] at h; cases h; exact Or.inl ⟨_, rfl⟩
          | some dateStr =>
            rw [hdate] at h; simp only [getKey, exbind_ok] at h
            cases hparse : parseTimestamp dateStr with
            | none => rw [hparse] at h; simp only [exbind_error] at h; cases h; exact Or.inr ⟨_, rfl⟩
            | some d =>
              rw [hparse] at h; simp only [exbind_ok] at h
              cases hurl : data.html_url with
              | none => rw [hurl] at h; simp only [getKey, exbind_error] at h; cases h; exact Or.inl ⟨_, rfl⟩
              | some url => rw [hurl] at h; simp only [getKey, exbind_ok] at h; cases h

theorem get_commit_details_ok_none_iff (detail : DetailOracle) (owner repo sha : String) :
    (get_commit_details detail owner repo sha).1 = .ok none ↔
      ∃ m, detail owner repo sha = .transportError m := by
  constructor
  · intro h
    cases hd : detail owner repo sha with
    | transportError m => exact ⟨m, rfl⟩
    | success data =>
      simp only [get_commit_details, hd] at h
      cases hdec : decodeCommitResponse owner repo data with
      | ok c => simp only [hdec] at h; cases h
      | error err => simp only [hdec] at h; cases h
  · rintro ⟨m, hm⟩
    simp only [get_commit_details, hm]

theorem get_commit_details_error_decode (detail : DetailOracle)
    (owner repo sha : String) (err : PyError)
    (h : (get_commit_details detail owner repo sha).1 = .error err) :
    ∃ data, detail owner repo sha = .success data ∧
      decodeCommitResponse owner repo data = .error err := by
  cases hd : detail owner repo sha with
  | transportError m => simp only [get_commit_details, hd] at h; cases h
  | success data =>
    simp only [get_commit_details, hd] at h
    cases hdec : decodeCommitResponse owner repo data with
    | ok c => simp only [hdec] at h; cases h
    | error e2 => simp only [hdec] at h; cases h; exact ⟨data, rfl, hdec⟩

theorem get_commit_details_error_pair (detail : DetailOracle)
    (owner repo sha : String) (err : PyError)
    (h : (get_commit_details detail owner repo sha).1 = .error err) :
    get_commit_details detail owner repo sha = (.error err, []) := by
  rcases get_commit_details_error_decode detail owner repo sha err h with ⟨data, hd, hdec⟩
  simp only [get_commit_details, hd, hdec]

theorem get_commit_details_missing_sha (detail : DetailOracle)
    (owner repo sha : String) (resp : CommitResponse)
    (hd : detail owner repo sha = .success resp) (hsha : resp.sha = none) :
    get_commit_details detail owner repo sha = (.error (.keyError "sha"), []) := by
  simp only [get_commit_details, hd, decodeCommitResponse, hsha, getKey, exbind_error]

theorem get_commit_details_bad_date (detail : DetailOracle)
    (owner repo sha : String) (resp : CommitResponse)
    (s1 s2 s3 s4 d : String)
    (hd : detail owner repo sha = .success resp)
    (h1 : resp.sha = some s1) (h2 : resp.author_name = some s2)
    (h3 : resp.author_email = some s3) (h4 : resp.message = some s4)
    (h5 : resp.author_date = some d) (h6 : parseTimestamp d = none) :
    get_commit_details detail owner repo sha = (.error (.valueError d), []) := by
  simp only [get_commit_details, hd, decodeCommitResponse, h1, h2, h3, h4, h5, h6,
    getKey, exbind_ok, exbind_error]

/-! Facts about the reporter's type grouping. -/

theorem typeCount_bumpType_same :
    ∀ (acc : List (String × Nat)) (t : String),
      typeCount (bumpType acc t) t = some ((typeCount acc t).getD 0 + 1) := by
  intro acc t
  induction acc with
  | nil => simp [bumpType, typeCount]
  | cons kn rest ih =>
    obtain ⟨k, n⟩ := kn
    by_cases hk : k = t
    · subst hk; simp [bumpType, typeCount]
    · simp [bumpType, typeCount, hk, ih]

theorem typeCount_bumpType_other :
    ∀ (acc : List (String × Nat)) (t t' : String), t' ≠ t →
      typeCount (bumpType acc t') t = typeCount acc t := by
  intro acc t t' ht
  induction acc with
  | nil => simp [bumpType, typeCount, ht]
  | cons kn rest ih =>
    obtain ⟨k, n⟩ := kn
    by_cases hk : k = t'
    · subst hk; simp [bumpType, typeCount, ht]
    · by_cases hkt : k = t
      · subst hkt; simp [bumpType, typeCount, hk, ih]
      · simp [bumpType, typeCount, hk, hkt, ih]

theorem typeCount_group_foldl :
    ∀ (es : List GitHubEvent) (acc : List (String × Nat)) (t : String),
      typeCount (es.foldl (fun a e => bumpType a e.type) acc) t =
        if es.countP (fun e => e.type == t) = 0 then typeCount acc t
        else some ((typeCount acc t).getD 0 + es.countP (fun e => e.type == t)) := by
  intro es
  induction es with
  | nil => intro acc t; simp
  | cons e rest ih =>
    intro acc t
    simp only [List.foldl_cons, List.countP_cons]
    by_cases ht : e.type = t
    · rw [ht]
      rw [ih (bumpType acc t) t, typeCount_bumpType_same]
      by_cases hc : rest.countP (fun e' => e'.type == t) = 0
      · simp [hc]
      · simp [hc]
        omega
    · have hbeq : (e.type == t) = false := by simp [ht]
      rw [ih (bumpType acc e.type) t, typeCount_bumpType_other acc t e.type ht]
      simp [hbeq]

/-! The claims. -/

/-- C1: for every sequence of pages returned by the remote, the pagination
loops in `get_user_events_2024` and `get_user_commits_2024` never issue a
request for a page whose starting offset `(p - 1) * 100` is ≥ 300; in
particular a full page 3 ends the loop because the next offset (300) meets
the cap. -/
theorem pagination_offset_cap (remote : EventsOracle) (detail : DetailOracle)
    (p : Nat) :
    (p ∈ (get_user_events_2024 remote).pages → (p - 1) * 100 < 300) ∧
    (p ∈ (get_user_commits_2024 remote detail).pages → (p - 1) * 100 < 300) := by
  constructor
  · intro hp
    rcases paginate_pages_le remote _ 1 p hp with h | h <;> omega
  · intro hp
    rcases paginate_pages_le remote _ 1 p hp with h | h <;> omega

theorem pagination_offset_cap_witness :
    1 ∈ (get_user_events_2024 sRemote).pages ∧ (1 - 1) * 100 < 300 := by
  have hm : 1 ∈ (get_user_events_2024 sRemote).pages := by
    rw [get_user_events_2024, paginate]; decide
  exact ⟨hm, (pagination_offset_cap sRemote sDetail 1).1 hm⟩

/-- C2: every Event record returned by `get_user_events_2024` has creation
year 2024, and an element of another year is dropped without ending the page
scan. -/
theorem events_year_filter (remote : EventsOracle) (evs : List GitHubEvent) :
    ((get_user_events_2024 remote).result = .ok evs →
      ∀ ev ∈ evs, ev.created_at.year = 2024) ∧
    (∀ (e : RawEvent) (data : List RawEvent) (dt : Datetime),
      parseTimestamp e.created_at = some dt → dt.year ≠ 2024 →
      processEventsPage (e :: data) = processEventsPage data) := by
  constructor
  · intro h
    refine paginate_ok_all remote _ 1 (fun ev => ev.created_at.year = 2024) ?_ evs h
    intro data cs lg hp
    have h1 := congrArg Prod.fst hp
    simp only at h1
    exact processEventsPage_ok_year data cs h1
  · exact fun e data dt hpt hy => processEventsPage_skip e data dt hpt hy

theorem events_year_filter_witness :
    (get_user_events_2024 sRemote2).result = .ok [sDecodedEvent] ∧
      sDecodedEvent.created_at.year = 2024 := by
  have h : (get_user_events_2024 sRemote2).result = .ok [sDecodedEvent] := by
    rw [get_user_events_2024, paginate]; decide
  exact ⟨h, (events_year_filter sRemote2 [sDecodedEvent]).1 h sDecodedEvent (by simp)⟩

/-- C3: each pagination loop stops the first time a page returns fewer than
100 elements (an empty page included): no page after such a page is ever
requested, even when the next offset would still be under the cap. -/
theorem pagination_stops_on_short_page (remote : EventsOracle)
    (detail : DetailOracle) (p : Nat) (data : List RawEvent) :
    (p ∈ (get_user_events_2024 remote).pages → remote p = .success data →
      data.length < 100 → ∀ q ∈ (get_user_events_2024 remote).pages, q ≤ p) ∧
    (p ∈ (get_user_commits_2024 remote detail).pages → remote p = .success data →
      data.length < 100 → ∀ q ∈ (get_user_commits_2024 remote detail).pages, q ≤ p) := by
  exact ⟨fun hp hr hs => paginate_stop_short remote _ 1 p data hp hr hs,
         fun hp hr hs => paginate_stop_short remote _ 1 p data hp hr hs⟩

theorem pagination_stops_on_short_page_witness :
    1 ∈ (get_user_events_2024 sRemote2).pages ∧ sRemote2 1 = .success [sPush] ∧
      [sPush].length < 100 ∧ (1 : Nat) ≤ 1 := by
  have hm : 1 ∈ (get_user_events_2024 sRemote2).pages := by
    rw [get_user_events_2024, paginate]; decide
  have hr : sRemote2 1 = .success [sPush] := by decide
  exact ⟨hm, hr, by decide,
    (pagination_stops_on_short_page sRemote2 sDetail 1 [sPush]).1 hm hr (by decide) 1 hm⟩

/-- C4: when `get_user_commits_2024` returns a list, that list is exactly the
specification-side one: per visited page, one Commit per successfully fetched
SHA of each 2024 `PushEvent`, in event-then-commit-array order, with no other
event type contributing. -/
theorem commits_match_push_spec (remote : EventsOracle) (detail : DetailOracle)
    (cs : List GitHubCommit)
    (h : (get_user_commits_2024 remote detail).result = .ok cs) :
    cs = (get_user_commits_2024 remote detail).pages.flatMap (fun p =>
      match remote p with
      | .success data => specCommitsOfEvents detail data
      | .transportError _ => []) := by
  refine paginate_ok_spec remote (processCommitsPage detail) 1
    (specCommitsOfEvents detail) rfl ?_ cs h
  intro data cs' lg hp
  exact processCommitsPage_ok_spec detail data cs' lg hp

theorem commits_match_push_spec_witness :
    (get_user_commits_2024 sRemote2 sDetail).result = .ok [sCommit] ∧
      [sCommit] = (get_user_commits_2024 sRemote2 sDetail).pages.flatMap (fun p =>
        match sRemote2 p with
        | .success data => specCommitsOfEvents sDetail data
        | .transportError _ => []) := by
  have h : (get_user_commits_2024 sRemote2 sDetail).result = .ok [sCommit] := by
    rw [get_user_commits_2024, paginate]; decide
  exact ⟨h, commits_match_push_spec sRemote2 sDetail [sCommit] h⟩

/-- C5: a transport failure on one SHA of a push is isolated: with three SHAs
of which the middle one fails, exactly the two fetched Commit records are
produced (in order, with the failure logged), and the rest of the page is
processed unchanged. -/
theorem push_partial_failure_isolation (detail : DetailOracle)
    (owner repo s1 s2 s3 m : String) (c1 c3 : GitHubCommit)
    (e : RawEvent) (dt : Datetime) (rest : List RawEvent)
    (h1 : get_commit_details detail owner repo s1 = (.ok (some c1), []))
    (h2 : detail owner repo s2 = .transportError m)
    (h3 : get_commit_details detail owner repo s3 = (.ok (some c3), []))
    (hty : e.type = "PushEvent")
    (hdt : parseTimestamp e.created_at = some dt)
    (hyr : dt.year = 2024)
    (hrepo : splitRepoName e.repo_name = .ok (owner, repo))
    (hpay : e.payload.commits = [s1, s2, s3]) :
    processPushCommits detail owner repo [s1, s2, s3] =
      (.ok [c1, c3], [s!"Error fetching commit details for {s2}: {m}"]) ∧
    processCommitsPage detail (e :: rest) =
      ((processCommitsPage detail rest).1.map (fun tail => [c1, c3] ++ tail),
        s!"Error fetching commit details for {s2}: {m}" ::
          (processCommitsPage detail rest).2) := by
  have h2' : get_commit_details detail owner repo s2 =
      (.ok none, [s!"Error fetching commit details for {s2}: {m}"]) := by
    simp only [get_commit_details, h2]
  have hpp : processPushCommits detail owner repo [s1, s2, s3] =
      (.ok [c1, c3], [s!"Error fetching commit details for {s2}: {m}"]) := by
    simp only [processPushCommits, h1, h2', h3, Except.map, List.nil_append,
      List.append_nil]
  refine ⟨hpp, ?_⟩
  have hskip : ¬(dt.year ≠ 2024 ∨ e.type ≠ "PushEvent") := by simp [hyr, hty]
  simp only [processCommitsPage, hdt, if_neg hskip, hrepo, hpay, hpp,
    List.singleton_append]

theorem push_partial_failure_isolation_witness :
    get_commit_details s5Detail "o" "r" "s1" = (.ok (some sCommit), []) ∧
    s5Detail "o" "r" "s2" = .transportError "404" ∧
    get_commit_details s5Detail "o" "r" "s3" = (.ok (some sCommit), []) ∧
    s5Push.type = "PushEvent" ∧
    parseTimestamp s5Push.created_at = some sDt ∧ sDt.year = 2024 ∧
    splitRepoName s5Push.repo_name = .ok ("o", "r") ∧
    s5Push.payload.commits = ["s1", "s2", "s3"] ∧
    processPushCommits s5Detail "o" "r" ["s1", "s2", "s3"] =
      (.ok [sCommit, sCommit], ["Error fetching commit details for s2: 404"]) := by
  have h1 : get_commit_details s5Detail "o" "r" "s1" = (.ok (some sCommit), []) := by
    decide
  have h2 : s5Detail "o" "r" "s2" = .transportError "404" := by decide
  have h3 : get_commit_details s5Detail "o" "r" "s3" = (.ok (some sCommit), []) := by
    decide
  have hdt : parseTimestamp s5Push.created_at = some sDt := by decide
  have hrepo : splitRepoName s5Push.repo_name = .ok ("o", "r") := by decide
  exact ⟨h1, h2, h3, rfl, hdt, rfl, hrepo, rfl,
    (push_partial_failure_isolation s5Detail "o" "r" "s1" "s2" "s3" "404"
      sCommit sCommit s5Push sDt [] h1 h2 h3 rfl hdt rfl hrepo rfl).1⟩

/-- C6 counterexample: the enricher does not split on the first "/" — on a
repository full name with two separators, the `split("/")` tuple unpacking
raises `ValueError` (the split yields three parts), so the result is an
error and in particular not `("a", "b/c")`. -/
theorem repo_name_split_counterexample :
    splitRepoName "a/b/c" = .error (.valueError "a/b/c") ∧
    ¬ (splitRepoName "a/b/c" = .ok ("a", "b/c")) :=
  ⟨by decide, by decide⟩

/-- C6 (amended): for every 2024 push event the enricher splits the
repository full name on "/" demanding exactly two components (owner, repo);
whenever `split("/")` yields anything but two parts — a name with no "/"
separator, or one with more than one — it fails with the `MalformedRepoName`
case, modelled as `ValueError`, and the page processing fails with that
error. -/
theorem repo_name_split (detail : DetailOracle) (name owner repo : String)
    (e : RawEvent) (dt : Datetime) (rest : List RawEvent) :
    (pySplit name '/' = [owner, repo] → splitRepoName name = .ok (owner, repo)) ∧
    ((pySplit name '/').length ≠ 2 →
      splitRepoName name = .error (.valueError name)) ∧
    ('/' ∉ name.data → splitRepoName name = .error (.valueError name)) ∧
    (parseTimestamp e.created_at = some dt → dt.year = 2024 →
      e.type = "PushEvent" →
      ∀ err, splitRepoName e.repo_name = .error err →
      processCommitsPage detail (e :: rest) = (.error err, [])) := by
  have hgen : (pySplit name '/').length ≠ 2 →
      splitRepoName name = .error (.valueError name) := by
    intro hlen
    cases hps : pySplit name '/' with
    | nil => simp only [splitRepoName, hps]
    | cons a tl =>
      cases tl with
      | nil => simp only [splitRepoName, hps]
      | cons b tl2 =>
        cases tl2 with
        | nil => exact absurd (by rw [hps]; rfl) hlen
        | cons c tl3 => simp only [splitRepoName, hps]
  refine ⟨?_, hgen, ?_, ?_⟩
  · intro h
    simp only [splitRepoName, h]
  · intro h
    have h1 : splitAll '/' name.data = [name.data] := splitAll_no_sep '/' name.data h
    simp only [splitRepoName, pySplit, h1, List.map_cons, List.map_nil]
  · intro hdt hyr hty err hsp
    have hskip : ¬(dt.year ≠ 2024 ∨ e.type ≠ "PushEvent") := by simp [hyr, hty]
    simp only [processCommitsPage, hdt, if_neg hskip, hsp]

theorem repo_name_split_witness :
    pySplit "o/r" '/' = ["o", "r"] ∧ splitRepoName "o/r" = .ok ("o", "r") ∧
    (pySplit "a/b/c" '/').length ≠ 2 ∧
    splitRepoName "a/b/c" = .error (.valueError "a/b/c") ∧
    '/' ∉ "justname".data ∧
    splitRepoName "justname" = .error (.valueError "justname") := by
  have h1 : pySplit "o/r" '/' = ["o", "r"] := by decide
  have h2 : (pySplit "a/b/c" '/').length ≠ 2 := by decide
  have h3 : '/' ∉ "justname".data := by decide
  exact ⟨h1, (repo_name_split sDetail "o/r" "o" "r" sPush sDt []).1 h1, h2,
    (repo_name_split sDetail "a/b/c" "x" "y" sPush sDt []).2.1 h2, h3,
    (repo_name_split sDetail "justname" "x" "y" sPush sDt []).2.2.1 h3⟩

/-- C7: a transport failure on the events listing propagates out of the fetch
(as the re-raised `RequestException`) and makes `main` print to stderr and
exit with code 1, whereas a transport failure on a commit-detail request is
caught inside `get_commit_details`, logged with the faulting SHA, and yields
`None` so only that commit is omitted. -/
theorem transport_error_paths (remote : EventsOracle) (detail : DetailOracle)
    (p : Nat) (m : String) :
    (p ∈ (get_user_events_2024 remote).pages → remote p = .transportError m →
      (get_user_events_2024 remote).result = .error (.requestException m) ∧
      (runMain remote detail).outcome = .exitOne ∧
      s!"Failed to fetch events: {m}" ∈ (runMain remote detail).errLog) ∧
    (∀ owner repo sha, detail owner repo sha = .transportError m →
      get_commit_details detail owner repo sha =
        (.ok none, [s!"Error fetching commit details for {sha}: {m}"])) := by
  constructor
  · intro hp hr
    have hres : (get_user_events_2024 remote).result =
        .error (.requestException m) :=
      paginate_transport_at remote _ 1 p m hp hr
    refine ⟨hres, ?_, ?_⟩
    · simp only [runMain, hres]
    · simp only [runMain, hres]
      simp
  · intro owner repo sha hd
    simp only [get_commit_details, hd]

theorem transport_error_paths_witness :
    1 ∈ (get_user_events_2024 s7Remote).pages ∧
    s7Remote 1 = .transportError "boom" ∧
    (runMain s7Remote s7Detail).outcome = .exitOne ∧
    s7Detail "o" "r" "s" = .transportError "404" ∧
    get_commit_details s7Detail "o" "r" "s" =
      (.ok none, ["Error fetching commit details for s: 404"]) := by
  have hm : 1 ∈ (get_user_events_2024 s7Remote).pages := by
    rw [get_user_events_2024, paginate]; decide
  have hr : s7Remote 1 = .transportError "boom" := rfl
  have ht := (transport_error_paths s7Remote s7Detail 1 "boom").1 hm hr
  have hc := (transport_error_paths s7Remote s7Detail 1 "404").2 "o" "r" "s" rfl
  exact ⟨hm, hr, ht.2.1, rfl, hc⟩

/-- C8: the reporter's grouping of events by type records, for each type,
exactly the number of events of that type in the input (and no entry for a
type that does not occur); in particular 3 events of type A and 2 of type B
yield exactly the mapping A ↦ 3, B ↦ 2. -/
theorem reporter_type_counts (events : List GitHubEvent) (t : String) :
    (typeCount (groupEventTypes events) t =
      if events.countP (fun e => e.type == t) = 0 then none
      else some (events.countP (fun e => e.type == t))) ∧
    groupEventTypes [sEventA, sEventA, sEventA, sEventB, sEventB] =
      [("A", 3), ("B", 2)] := by
  constructor
  · rw [groupEventTypes, typeCount_group_foldl events [] t]
    simp [typeCount]
  · decide

/-- C9: in `get_commit_details` exactly the transport failures give a skipped
commit (`None`); a decoding failure — missing `sha`, a missing field, or an
author date not matching the fixed format — is an uncaught `KeyError` or
`ValueError` that propagates out of `get_user_commits_2024` and aborts the
run instead of skipping the commit. -/
theorem commit_decode_errors_propagate (detail : DetailOracle)
    (owner repo sha : String) :
    ((get_commit_details detail owner repo sha).1 = .ok none ↔
      ∃ m, detail owner repo sha = .transportError m) ∧
    (∀ resp, detail owner repo sha = .success resp → resp.sha = none →
      get_commit_details detail owner repo sha = (.error (.keyError "sha"), [])) ∧
    (∀ resp s1 s2 s3 s4 d, detail owner repo sha = .success resp →
      resp.sha = some s1 → resp.author_name = some s2 →
      resp.author_email = some s3 → resp.message = some s4 →
      resp.author_date = some d → parseTimestamp d = none →
      get_commit_details detail owner repo sha = (.error (.valueError d), [])) ∧
    (∀ err, (get_commit_details detail owner repo sha).1 = .error err →
      (∀ m, err ≠ .requestException m) ∧
      ∀ (remote : EventsOracle) (e : RawEvent) (dt : Datetime)
        (shas : List String) (evRest : List RawEvent),
        parseTimestamp e.created_at = some dt → dt.year = 2024 →
        e.type = "PushEvent" → splitRepoName e.repo_name = .ok (owner, repo) →
        e.payload.commits = sha :: shas → remote 1 = .success (e :: evRest) →
        (get_user_commits_2024 remote detail).result = .error err ∧
        (∀ evs, (get_user_events_2024 remote).result = .ok evs →
          (runMain remote detail).outcome = .uncaught err)) := by
  refine ⟨get_commit_details_ok_none_iff detail owner repo sha, ?_, ?_, ?_⟩
  · intro resp hd hsha
    exact get_commit_details_missing_sha detail owner repo sha resp hd hsha
  · intro resp s1 s2 s3 s4 d hd h1 h2 h3 h4 h5 h6
    exact get_commit_details_bad_date detail owner repo sha resp s1 s2 s3 s4 d
      hd h1 h2 h3 h4 h5 h6
  · intro err herr
    have hshape : (∃ k, err = .keyError k) ∨ (∃ m, err = .valueError m) := by
      rcases get_commit_details_error_decode detail owner repo sha err herr with
        ⟨resp, hd, hdec⟩
      exact decodeCommitResponse_error_shape owner repo resp err hdec
    have hne : ∀ m, err ≠ .requestException m := by
      rcases hshape with ⟨k, rfl⟩ | ⟨m0, rfl⟩ <;> exact fun m hcon => by cases hcon
    refine ⟨hne, ?_⟩
    intro remote e dt shas evRest hdt hyr hty hsplit hpay hremote
    have hgp : get_commit_details detail owner repo sha = (.error err, []) :=
      get_commit_details_error_pair detail owner repo sha err herr
    have hpush : processPushCommits detail owner repo (sha :: shas) =
        (.error err, []) := by
      simp only [processPushCommits, hgp]
    have hskip : ¬(dt.year ≠ 2024 ∨ e.type ≠ "PushEvent") := by simp [hyr, hty]
    have hpage : processCommitsPage detail (e :: evRest) = (.error err, []) := by
      simp only [processCommitsPage, hdt, if_neg hskip, hsplit, hpay, hpush]
    have hcommits : (get_user_commits_2024 remote detail).result = .error err := by
      rw [get_user_commits_2024, paginate]
      simp only [hremote]
      rw [if_neg (by simp)]
      simp only [hpage]
    refine ⟨hcommits, ?_⟩
    intro evs hevs
    rcases hshape with ⟨k, rfl⟩ | ⟨m0, rfl⟩ <;>
      simp only [runMain, hevs, hcommits]

theorem commit_decode_errors_propagate_witness :
    (get_commit_details s9Detail "o" "r" "s1").1 = .error (.keyError "sha") ∧
    s9Remote 1 = .success [sPush] ∧
    (get_user_events_2024 s9Remote).result = .ok [sDecodedEvent] ∧
    (get_user_commits_2024 s9Remote s9Detail).result = .error (.keyError "sha") ∧
    (runMain s9Remote s9Detail).outcome = .uncaught (.keyError "sha") := by
  have herr : (get_commit_details s9Detail "o" "r" "s1").1 =
      .error (.keyError "sha") := by decide
  have hremote : s9Remote 1 = .success [sPush] := by decide
  have hdt : parseTimestamp sPush.created_at = some sDt := by decide
  have hsplit : splitRepoName sPush.repo_name = .ok ("o", "r") := by decide
  have hevs : (get_user_events_2024 s9Remote).result = .ok [sDecodedEvent] := by
    rw [get_user_events_2024, paginate]; decide
  have hmain := ((commit_decode_errors_propagate s9Detail "o" "r" "s1").2.2.2
    (.keyError "sha") herr).2 s9Remote sPush sDt [] [] hdt rfl rfl hsplit rfl hremote
  exact ⟨herr, hremote, hevs, hmain.1, hmain.2 [sDecodedEvent] hevs⟩

/-- C10: when a processed page contains an event whose `created_at` does not
match the fixed format, both fetches raise an unguarded parse error that
aborts them: `get_user_events_2024` ends in a `ValueError` and
`get_user_commits_2024` ends in an error, so no partial result list is
returned. -/
theorem malformed_timestamp_aborts (remote : EventsOracle)
    (detail : DetailOracle) (p : Nat) (data : List RawEvent) (e : RawEvent) :
    (p ∈ (get_user_events_2024 remote).pages → remote p = .success data →
      e ∈ data → parseTimestamp e.created_at = none →
      ∃ m, (get_user_events_2024 remote).result = .error (.valueError m)) ∧
    (p ∈ (get_user_commits_2024 remote detail).pages → remote p = .success data →
      e ∈ data → parseTimestamp e.created_at = none →
      ∃ err, (get_user_commits_2024 remote detail).result = .error err) := by
  constructor
  · intro hp hr hmem hpt
    have hne : data ≠ [] := by
      intro h
      subst h
      cases hmem
    rcases processEventsPage_mal data e hmem hpt with ⟨err, herr⟩
    have hres : (get_user_events_2024 remote).result = .error err :=
      paginate_error_at remote _ 1 p data err hp hr hne herr
    rcases processEventsPage_error_val data err herr with ⟨m, rfl⟩
    exact ⟨m, hres⟩
  · intro hp hr hmem hpt
    have hne : data ≠ [] := by
      intro h
      subst h
      cases hmem
    rcases processCommitsPage_mal detail data e hmem hpt with ⟨err, herr⟩
    exact ⟨err, paginate_error_at remote _ 1 p data err hp hr hne herr⟩

theorem malformed_timestamp_aborts_witness :
    1 ∈ (get_user_events_2024 s10Remote).pages ∧
    1 ∈ (get_user_commits_2024 s10Remote sDetail).pages ∧
    s10Remote 1 = .success [sBadEvent] ∧ sBadEvent ∈ [sBadEvent] ∧
    parseTimestamp sBadEvent.created_at = none ∧
    (∃ m, (get_user_events_2024 s10Remote).result = .error (.valueError m)) ∧
    (∃ err, (get_user_commits_2024 s10Remote sDetail).result = .error err) := by
  have hpe : 1 ∈ (get_user_events_2024 s10Remote).pages := by
    rw [get_user_events_2024, paginate]; decide
  have hpc : 1 ∈ (get_user_commits_2024 s10Remote sDetail).pages := by
    rw [get_user_commits_2024, paginate]; decide
  have hr : s10Remote 1 = .success [sBadEvent] := by decide
  have hmem : sBadEvent ∈ [sBadEvent] := by simp
  have hpt : parseTimestamp sBadEvent.created_at = none := by decide
  exact ⟨hpe, hpc, hr, hmem, hpt,
    (malformed_timestamp_aborts s10Remote sDetail 1 [sBadEvent] sBadEvent).1
      hpe hr hmem hpt,
    (malformed_timestamp_aborts s10Remote sDetail 1 [sBadEvent] sBadEvent).2
      hpc hr hmem hpt⟩

end HackersWrapped
